import Mathlib

/-
  Verification development for the ApuluStudio social-media scheduling and
  cross-posting dashboard.

  The frontend composer (frontend/src/components/posts/QuickPost.tsx) is
  embedded directly from its TypeScript source.  The backend scheduling and
  publishing engine (FastAPI service layer: scheduler_service.py,
  smart_scheduler.py, background_scheduler.py, platforms/requirements.py) is
  not part of the available sources; those operations are modelled from the
  specification (spec.md sections 3, 4.2, 4.3) and each such definition is
  marked "Modelled from the spec:" in its doc comment.
-/

namespace Apulu

/-- Character limits per platform. Embedded from QuickPost.tsx lines 48 to 56
(PLATFORM_CHAR_LIMITS): x 280, bluesky 300, threads 500, instagram 2200,
tiktok 2200, linkedin 3000, facebook 63206; other keys are absent. -/
def PLATFORM_CHAR_LIMITS (p : String) : Option Nat :=
  if p = "x" then some 280
  else if p = "bluesky" then some 300
  else if p = "threads" then some 500
  else if p = "instagram" then some 2200
  else if p = "tiktok" then some 2200
  else if p = "linkedin" then some 3000
  else if p = "facebook" then some 63206
  else none

/-- The expression PLATFORM_CHAR_LIMITS[p] || 2200 from QuickPost.tsx:
the platform limit, defaulting to 2200 for a platform absent from the table
(no stored limit is zero, so JS falsy defaulting coincides with getD). -/
def charLimitOr2200 (p : String) : Nat :=
  (PLATFORM_CHAR_LIMITS p).getD 2200

/-- Embedded from QuickPost.tsx lines 85 to 87: the enforced textarea
maxLength is the minimum limit over the selected platforms, or 2200 when no
platform is selected. -/
def maxLength (selectedPlatforms : List String) : Nat :=
  match selectedPlatforms with
  | [] => 2200
  | p :: ps => (ps.map charLimitOr2200).foldl Nat.min (charLimitOr2200 p)

/-- Embedded from QuickPost.tsx lines 90 to 92: the selected platforms whose
limit the current content length strictly exceeds. -/
def platformsOverLimit (selectedPlatforms : List String) (contentLength : Nat) :
    List String :=
  selectedPlatforms.filter fun p => decide (charLimitOr2200 p < contentLength)

/-- Embedded from QuickPost.tsx line 296: the platforms that require media. -/
def mediaRequiredPlatforms : List String := ["instagram", "tiktok"]

/-- The expression p.charAt(0).toUpperCase() + p.slice(1) from
QuickPost.tsx line 315. -/
def capitalizeFirst (s : String) : String :=
  match s.data with
  | [] => ""
  | c :: cs => String.mk (c.toUpper :: cs)

/-- The media-required error message built in QuickPost.tsx lines 313 to 317:
the selected media-mandating platforms, capitalized and joined with " and ",
followed by the fixed suffix. -/
def mediaRequiredMessage (selectedPlatforms : List String) : String :=
  String.intercalate " and "
    ((selectedPlatforms.filter fun p => mediaRequiredPlatforms.contains p).map
      capitalizeFirst)
    ++ " requires media - please add an image or video"

/-- The JS content.trim() of QuickPost.tsx, modelled structurally over the
character list (strip leading and trailing whitespace) so that it reduces on
concrete inputs. -/
def trimStr (s : String) : String :=
  String.mk
    (((s.data.dropWhile Char.isWhitespace).reverse.dropWhile
        Char.isWhitespace).reverse)

/-- Outcome of the QuickPost submit handler: either an early-return toast
error, or the createPost mutation payload. -/
inductive SubmitOutcome where
  | error (msg : String)
  | create (content : String) (platforms : List String)
      (scheduledAt : Option String) (mediaUrls : Option (List String))
      (publishNow : Bool)
  deriving DecidableEq, Repr

/-- Embedded from QuickPost.tsx lines 298 to 337 (handleSubmit): guards run in
source order - empty content, no platform selected, media-mandating platform
with no media, then the schedule branch; otherwise the createPost mutation
payload is produced.  The Date conversion of the schedule fields is kept as
the raw date and time strings joined by "T". -/
def handleSubmit (content : String) (selectedPlatforms : List String)
    (mediaUrls : List String) (schedule : Bool)
    (scheduledDate scheduledTime : String) : SubmitOutcome :=
  if trimStr content = "" then .error "Please enter some content"
  else if selectedPlatforms.isEmpty then
    .error "Please select at least one platform"
  else if (selectedPlatforms.any fun p => mediaRequiredPlatforms.contains p)
      && mediaUrls.isEmpty then
    .error (mediaRequiredMessage selectedPlatforms)
  else if schedule && !(scheduledDate = "") && !(scheduledTime = "") then
    .create (trimStr content) selectedPlatforms
      (some (scheduledDate ++ "T" ++ scheduledTime))
      (if mediaUrls.isEmpty then none else some mediaUrls) false
  else if schedule then .error "Please select a date and time"
  else
    .create (trimStr content) selectedPlatforms none
      (if mediaUrls.isEmpty then none else some mediaUrls) true

/-- Modelled from the spec: Post lifecycle status of section 4.3
(DRAFT, SCHEDULED, PUBLISHING, PUBLISHED, FAILED); the backend model file is
not among the sources. -/
inductive PostStatus where
  | draft
  | scheduled
  | publishing
  | published
  | failed
  deriving DecidableEq, Repr

/-- Modelled from the spec: per-PostPlatform status of section 4.3
(PENDING, PUBLISHING, PUBLISHED, FAILED). -/
inductive TargetStatus where
  | pending
  | publishing
  | published
  | failed
  deriving DecidableEq, Repr

/-- Modelled from the spec: the PostPlatform per-target publication record of
section 3, restricted to the fields the verified operations touch. -/
structure PostPlatformRec where
  platform : String
  targetStatus : TargetStatus
  errorMessage : Option String
  deriving DecidableEq, Repr

/-- Modelled from the spec: the Post entity of section 3, restricted to the
fields the verified operations touch; the PostPlatform children are owned by
the Post (created atomically with it). -/
structure PostRec where
  status : PostStatus
  scheduledAt : Option Nat
  publishedAt : Option Nat
  targets : List PostPlatformRec
  deriving DecidableEq, Repr

/-- Modelled from the spec: the per-target adapter PostResult of section 4.1
(success flag and error message; external id and url are not needed by the
verified properties). -/
structure PostResult where
  success : Bool
  errorMessage : Option String
  deriving DecidableEq, Repr

/-- Modelled from the spec: the error taxonomy of section 4.3 for the
scheduling and publishing service, restricted to the creation and publish
guards the claims exercise. -/
inductive CreateError where
  | noPlatform
  | accountNotConnected (platform : String)
  | contentValidationFailed (platforms : List String)
  | scheduledAtPast
  deriving DecidableEq, Repr

/-- Modelled from the spec: errors of publishPost in section 4.3. -/
inductive PublishError where
  | alreadyPublishing
  | invalidState
  deriving DecidableEq, Repr

/-- Modelled from the spec: the per-platform content validation of
platforms/requirements.py (missing from the sources): a character-limit rule
using the platform limits of the PLATFORM_CHAR_LIMITS table, and the
media-required rule for the media-mandating platforms; returns the list of
violations (empty means valid). -/
def validate_content_for_platform (platform : String) (contentLength : Nat)
    (hasMedia : Bool) : List String :=
  (if charLimitOr2200 platform < contentLength then
    ["content exceeds the platform character limit"] else [])
  ++ (if mediaRequiredPlatforms.contains platform && !hasMedia then
    ["platform requires media"] else [])

/-- A post creation request (content, target platforms, optional scheduled
instant, media references), as accepted by POST /api/posts. -/
structure CreateRequest where
  content : String
  platforms : List String
  scheduledAt : Option Nat
  mediaUrls : List String
  deriving DecidableEq, Repr

/-- Modelled from the spec: createPost of section 4.3.  Validates that at
least one platform is given, that every platform has a connected account,
and that content passes per-platform validation - failing with an aggregated
error listing every offending platform; rejects a non-future scheduledAt.
On success builds the Post with one pending PostPlatform child per requested
platform, SCHEDULED when scheduledAt is future, else DRAFT.  The Except
result models the transaction: an error leaves zero Post and zero
PostPlatform rows. -/
def createPost (now : Nat) (connected : List String) (req : CreateRequest) :
    Except CreateError PostRec :=
  if req.platforms.isEmpty then .error .noPlatform
  else
    match req.platforms.find? fun p => !connected.contains p with
    | some p => .error (.accountNotConnected p)
    | none =>
      if !(req.platforms.filter fun p =>
          !(validate_content_for_platform p req.content.length
              (!req.mediaUrls.isEmpty)).isEmpty).isEmpty then
        .error (.contentValidationFailed (req.platforms.filter fun p =>
          !(validate_content_for_platform p req.content.length
              (!req.mediaUrls.isEmpty)).isEmpty))
      else
        match req.scheduledAt with
        | some t =>
          if now < t then
            .ok { status := .scheduled, scheduledAt := some t,
                  publishedAt := none,
                  targets := req.platforms.map fun p =>
                    { platform := p, targetStatus := .pending,
                      errorMessage := none } }
          else .error .scheduledAtPast
        | none =>
          .ok { status := .draft, scheduledAt := none, publishedAt := none,
                targets := req.platforms.map fun p =>
                  { platform := p, targetStatus := .pending,
                    errorMessage := none } }

/-- Modelled from the spec: the publishPost precondition guard of section
4.3 - the conditional (compare-and-swap style) transition to PUBLISHING.
It succeeds only from DRAFT, SCHEDULED or FAILED; a post already PUBLISHING
fails fast with AlreadyPublishing; a PUBLISHED post fails with
InvalidState. -/
def publishGuard (p : PostRec) : Except PublishError PostRec :=
  if p.status = .publishing then .error .alreadyPublishing
  else if p.status = .draft ∨ p.status = .scheduled ∨ p.status = .failed then
    .ok { p with status := .publishing }
  else .error .invalidState

/-- Modelled from the spec: the per-target fan-out of publishPost in section
4.3.  Each target is updated independently from its own adapter outcome:
success marks the PostPlatform PUBLISHED, failure marks it FAILED and
records the error message.  The parent becomes PUBLISHED when at least one
target succeeded (setting published_at to the completion instant), else
FAILED. -/
def publishFanout (now : Nat) (p : PostRec) (outcomes : List PostResult) :
    PostRec :=
  let newTargets := (p.targets.zip outcomes).map fun tr =>
    if tr.2.success then
      { tr.1 with targetStatus := .published, errorMessage := none }
    else
      { tr.1 with targetStatus := .failed, errorMessage := tr.2.errorMessage }
  let anyOk := outcomes.any fun r => r.success
  { p with targets := newTargets,
           status := if anyOk then .published else .failed,
           publishedAt := if anyOk then some now else p.publishedAt }

/-- Modelled from the spec: publishPost of section 4.3 - the PUBLISHING
guard runs first (so any adapter dispatch happens only after the transition
succeeded), then the isolated per-target fan-out with result aggregation. -/
def publishPost (now : Nat) (p : PostRec) (outcomes : List PostResult) :
    Except PublishError PostRec :=
  (publishGuard p).map fun pg => publishFanout now pg outcomes

/-- Insertion into a list sorted by the boolean comparison le. -/
def insertByB {α : Type} (le : α → α → Bool) (a : α) : List α → List α
  | [] => [a]
  | b :: l => if le a b then a :: b :: l else b :: insertByB le a l

/-- Insertion sort by the boolean comparison le. -/
def sortByB {α : Type} (le : α → α → Bool) : List α → List α
  | [] => []
  | a :: l => insertByB le a (sortByB le l)

/-- The sort key of a scheduled post: its scheduled_at instant (0 when
absent; every post the due query selects has one). -/
def schedKey (p : PostRec) : Nat := p.scheduledAt.getD 0

/-- The due-post predicate of the query in section 4.3: status SCHEDULED and
scheduled_at present and not after asOf (a NULL scheduled_at never
matches). -/
def isDue (asOf : Nat) (p : PostRec) : Bool :=
  decide (p.status = .scheduled) &&
    match p.scheduledAt with
    | some s => decide (s ≤ asOf)
    | none => false

/-- Modelled from the spec: getDuePosts of section 4.3 - the posts with
status SCHEDULED and scheduled_at not after asOf, ordered by scheduled_at
ascending. -/
def getDuePosts (posts : List PostRec) (asOf : Nat) : List PostRec :=
  sortByB (fun a b => decide (schedKey a ≤ schedKey b))
    (posts.filter (isDue asOf))

/-- A candidate posting time slot: the absolute instant together with its
day-of-week and hour-of-day coordinates into the engagement table. -/
structure TimeSlot where
  time : Nat
  day : Nat
  hour : Nat
  deriving DecidableEq, Repr

/-- Modelled from the spec: the aggregate score of a candidate slot in
getOptimalSingleTime (section 4.2): the mean of the per-platform engagement
scores at that slot, counting 0 for a platform with no data for it.  The
engagement-pattern table is static data owned by the missing SmartScheduler
module, so it is passed in as a lookup from platform, day and hour to an
optional score. -/
def aggScore (pats : String → Nat → Nat → Option Nat)
    (platforms : List String) (s : TimeSlot) : Rat :=
  ((platforms.map fun p => (((pats p s.day s.hour).getD 0 : Nat) : Rat)).sum)
    / (platforms.length : Rat)

/-- The reducer of getOptimalSingleTime: keep the incumbent unless the
challenger scores strictly higher, or ties the score at a strictly earlier
instant (so the earlier instant wins ties). -/
def pickBest {α : Type} (score : α → Rat) (time : α → Nat) (best x : α) :
    α :=
  if score best < score x ∨ (score x = score best ∧ time x < time best)
  then x else best

/-- Modelled from the spec: getOptimalSingleTime of section 4.2 - over the
evaluated candidate slots, return the slot maximizing the aggregate score,
the earlier instant winning ties; none when there is no candidate. -/
def getOptimalSingleTime (pats : String → Nat → Nat → Option Nat)
    (platforms : List String) (candidates : List TimeSlot) : Option TimeSlot :=
  match candidates with
  | [] => none
  | c :: cs =>
    some (cs.foldl (pickBest (aggScore pats platforms) TimeSlot.time) c)

/-- Modelled from the spec: the engagement-level labels of section 4.2 -
peak at score 90 and above, high at 75, moderate at 50, else low. -/
def engagementLevel (score : Nat) : String :=
  if 90 ≤ score then "peak"
  else if 75 ≤ score then "high"
  else if 50 ≤ score then "moderate"
  else "low"

/-- One ranked best-time suggestion: the instant, its engagement score, the
engagement-level label and the human-readable reason. -/
structure BestTime where
  time : Nat
  score : Nat
  level : String
  reason : String
  deriving DecidableEq, Repr

/-- Modelled from the spec: getBestTimes of section 4.2.  Instants are hours;
the candidates are the 168 hours of the week starting at fromInstant, each
scored and annotated from the platform engagement-pattern lookup (score and
reason; a slot with no data scores 0 with a generic reason), ranked by
descending score, truncated to count.  Deterministic in fromInstant by
construction. -/
def getBestTimes (pat : Nat → Nat → Option (Nat × String))
    (fromInstant : Nat) (count : Nat) : List BestTime :=
  let cands := (List.range 168).map fun k =>
    let t := fromInstant + k
    let d := (pat ((t / 24) % 7) (t % 24)).getD (0, "off-peak hours")
    { time := t, score := d.1, level := engagementLevel d.1,
      reason := d.2 : BestTime }
  (sortByB (fun a b => decide (b.score ≤ a.score)) cands).take count

theorem mem_insertByB {α : Type} (le : α → α → Bool) (a x : α) (l : List α) :
    x ∈ insertByB le a l ↔ x = a ∨ x ∈ l := by
  induction l with
  | nil => simp [insertByB]
  | cons b l ih =>
    simp only [insertByB]
    by_cases h : le a b = true
    · rw [if_pos h]
      simp only [List.mem_cons]
    · rw [if_neg h]
      simp only [List.mem_cons, ih]
      tauto

theorem pairwise_insertByB {α : Type} (le : α → α → Bool)
    (htot : ∀ a b, le a b = true ∨ le b a = true)
    (htrans : ∀ a b c, le a b = true → le b c = true → le a c = true)
    (a : α) (l : List α)
    (hl : l.Pairwise fun x y => le x y = true) :
    (insertByB le a l).Pairwise fun x y => le x y = true := by
  induction l with
  | nil => simp [insertByB]
  | cons b l ih =>
    rcases List.pairwise_cons.mp hl with ⟨hb, hl'⟩
    simp only [insertByB]
    by_cases h : le a b = true
    · rw [if_pos h]
      refine List.pairwise_cons.mpr ⟨?_, hl⟩
      intro y hy
      rcases List.mem_cons.mp hy with rfl | hy
      · exact h
      · exact htrans a b y h (hb y hy)
    · have hba : le b a = true := (htot a b).resolve_left h
      rw [if_neg h]
      refine List.pairwise_cons.mpr ⟨?_, ih hl'⟩
      intro y hy
      rcases (mem_insertByB le a y l).mp hy with rfl | hy
      · exact hba
      · exact hb y hy

theorem pairwise_sortByB {α : Type} (le : α → α → Bool)
    (htot : ∀ a b, le a b = true ∨ le b a = true)
    (htrans : ∀ a b c, le a b = true → le b c = true → le a c = true)
    (l : List α) :
    (sortByB le l).Pairwise fun x y => le x y = true := by
  induction l with
  | nil => simp [sortByB]
  | cons a l ih => exact pairwise_insertByB le htot htrans a _ ih

theorem mem_sortByB {α : Type} (le : α → α → Bool) (x : α) (l : List α) :
    x ∈ sortByB le l ↔ x ∈ l := by
  induction l with
  | nil => simp [sortByB]
  | cons a l ih => simp [sortByB, mem_insertByB, ih]

/-- C5: for every instant asOf, getDuePosts returns exactly the posts whose
status is SCHEDULED and whose scheduled_at is present and at most asOf
(never a post with a later scheduled_at or another status), and the result
is ordered by scheduled_at ascending, oldest due first. -/
theorem getDuePosts_exact_and_sorted (posts : List PostRec) (asOf : Nat) :
    (∀ q : PostRec, q ∈ getDuePosts posts asOf ↔
      q ∈ posts ∧ q.status = .scheduled ∧
        ∃ s, q.scheduledAt = some s ∧ s ≤ asOf) ∧
    (getDuePosts posts asOf).Pairwise fun a b => schedKey a ≤ schedKey b := by
  constructor
  · intro q
    rw [getDuePosts, mem_sortByB, List.mem_filter]
    have hdue : isDue asOf q = true ↔
        q.status = .scheduled ∧ ∃ s, q.scheduledAt = some s ∧ s ≤ asOf := by
      cases hs : q.scheduledAt with
      | none => simp [isDue, hs]
      | some s => simp [isDue, hs]
    rw [hdue]
  · have h := pairwise_sortByB
      (fun a b : PostRec => decide (schedKey a ≤ schedKey b))
      (fun a b => by
        rcases Nat.le_total (schedKey a) (schedKey b) with h | h <;> simp [h])
      (fun a b c hab hbc => by
        simp only [decide_eq_true_eq] at hab hbc ⊢
        exact le_trans hab hbc)
      (posts.filter (isDue asOf))
    exact h.imp fun hx => of_decide_eq_true hx

/-- C8: for every engagement-pattern lookup, start instant and count, the
sequence returned by getBestTimes has engagement scores monotonically
non-increasing by rank position (ranked in descending score order). -/
theorem getBestTimes_scores_monotone (pat : Nat → Nat → Option (Nat × String))
    (fromInstant count : Nat) :
    (getBestTimes pat fromInstant count).Pairwise
      fun a b => b.score ≤ a.score := by
  unfold getBestTimes
  refine List.Pairwise.sublist (List.take_sublist _ _) ?_
  have htot : ∀ a b : BestTime,
      decide (b.score ≤ a.score) = true ∨ decide (a.score ≤ b.score) = true := by
    intro a b
    rcases Nat.le_total b.score a.score with h | h <;> simp [h]
  have htrans : ∀ a b c : BestTime,
      decide (b.score ≤ a.score) = true → decide (c.score ≤ b.score) = true →
      decide (c.score ≤ a.score) = true := by
    intro a b c hab hbc
    simp only [decide_eq_true_eq] at hab hbc ⊢
    exact le_trans hbc hab
  exact List.Pairwise.imp (fun hx => of_decide_eq_true hx)
    (pairwise_sortByB (fun a b : BestTime => decide (b.score ≤ a.score))
      htot htrans _)

theorem fanout_statuses (ts : List PostPlatformRec) (os : List PostResult)
    (h : ts.length = os.length) :
    ((ts.zip os).map fun tr =>
      if tr.2.success then
        { tr.1 with targetStatus := .published, errorMessage := none }
      else
        { tr.1 with targetStatus := .failed,
                    errorMessage := tr.2.errorMessage }).map
        (fun t => t.targetStatus)
      = os.map fun r =>
          if r.success then TargetStatus.published else TargetStatus.failed := by
  induction ts generalizing os with
  | nil =>
    cases os with
    | nil => simp
    | cons o os => simp at h
  | cons t ts ih =>
    cases os with
    | nil => simp at h
    | cons o os =>
      simp only [List.zip_cons_cons, List.map_cons, List.cons.injEq]
      refine ⟨?_, ih os (by simpa using h)⟩
      by_cases hs : o.success <;> simp [hs]

theorem fanout_platforms (ts : List PostPlatformRec) (os : List PostResult)
    (h : ts.length = os.length) :
    ((ts.zip os).map fun tr =>
      if tr.2.success then
        { tr.1 with targetStatus := .published, errorMessage := none }
      else
        { tr.1 with targetStatus := .failed,
                    errorMessage := tr.2.errorMessage }).map
        (fun t => t.platform)
      = ts.map fun t => t.platform := by
  induction ts generalizing os with
  | nil =>
    cases os with
    | nil => simp
    | cons o os => simp at h
  | cons t ts ih =>
    cases os with
    | nil => simp at h
    | cons o os =>
      simp only [List.zip_cons_cons, List.map_cons, List.cons.injEq]
      refine ⟨?_, ih os (by simpa using h)⟩
      by_cases hs : o.success <;> simp [hs]

/-- C1: for a post in a publishable state with one adapter outcome per
target, publishPost resolves successfully; each target whose adapter call
succeeded is marked PUBLISHED and each that failed is marked FAILED,
pointwise and independently (targets and their platforms are preserved in
order, so no failure aborts or rolls back a sibling); the parent post
becomes PUBLISHED when at least one target succeeded, and FAILED exactly
when every target failed. -/
theorem publishPost_per_target_isolation (now : Nat) (p : PostRec)
    (outcomes : List PostResult)
    (hstatus : p.status = .draft ∨ p.status = .scheduled ∨ p.status = .failed)
    (hlen : outcomes.length = p.targets.length) :
    ∃ p', publishPost now p outcomes = .ok p' ∧
      (p'.targets.map fun t => t.targetStatus)
        = (outcomes.map fun r =>
            if r.success then TargetStatus.published else TargetStatus.failed) ∧
      (p'.targets.map fun t => t.platform) = (p.targets.map fun t => t.platform) ∧
      p'.status = (if outcomes.any (fun r => r.success) then
        PostStatus.published else PostStatus.failed) := by
  have hguard : publishGuard p = .ok { p with status := .publishing } := by
    rcases hstatus with h | h | h <;> simp [publishGuard, h]
  refine ⟨publishFanout now { p with status := .publishing } outcomes,
    ?_, ?_, ?_, ?_⟩
  · simp [publishPost, hguard, Except.map]
  · simpa [publishFanout] using
      fanout_statuses p.targets outcomes hlen.symm
  · simpa [publishFanout] using
      fanout_platforms p.targets outcomes hlen.symm
  · simp [publishFanout]

/-- Witness for C1: a scheduled post with two targets, where the first
adapter call succeeds and the second fails, resolves to a PUBLISHED post
whose first target is PUBLISHED and second is FAILED. -/
theorem publishPost_per_target_isolation_witness :
    ∃ p', publishPost 5
        { status := .scheduled, scheduledAt := some 3, publishedAt := none,
          targets :=
            [{ platform := "threads", targetStatus := .pending,
               errorMessage := none },
             { platform := "bluesky", targetStatus := .pending,
               errorMessage := none }] }
        [{ success := true, errorMessage := none },
         { success := false, errorMessage := some "timeout" }] = .ok p' ∧
      (p'.targets.map fun t => t.targetStatus)
        = ([{ success := true, errorMessage := none },
            { success := false, errorMessage := some "timeout" }].map
            fun r : PostResult =>
              if r.success then TargetStatus.published
              else TargetStatus.failed) ∧
      (p'.targets.map fun t => t.platform)
        = ([{ platform := "threads", targetStatus := .pending,
              errorMessage := none },
            { platform := "bluesky", targetStatus := .pending,
              errorMessage := none }].map
            fun t : PostPlatformRec => t.platform) ∧
      p'.status = (if ([{ success := true, errorMessage := none },
          { success := false, errorMessage := some "timeout" }].any
            fun r : PostResult => r.success) then
        PostStatus.published else PostStatus.failed) :=
  publishPost_per_target_isolation 5
    { status := .scheduled, scheduledAt := some 3, publishedAt := none,
      targets :=
        [{ platform := "threads", targetStatus := .pending,
           errorMessage := none },
         { platform := "bluesky", targetStatus := .pending,
           errorMessage := none }] }
    [{ success := true, errorMessage := none },
     { success := false, errorMessage := some "timeout" }]
    (Or.inr (Or.inl rfl)) rfl

/-- C2: publishPost requires the post status to be DRAFT, SCHEDULED or
FAILED and the guard transitions the post to PUBLISHING before any adapter
dispatch; a publishPost call on a post already PUBLISHING fails with
AlreadyPublishing, so of two simultaneous calls the one whose guard runs
first proceeds and the other fails with AlreadyPublishing. -/
theorem publishGuard_concurrency (now : Nat) (p : PostRec)
    (outcomes : List PostResult)
    (hstatus : p.status = .draft ∨ p.status = .scheduled ∨ p.status = .failed) :
    publishGuard p = .ok { p with status := .publishing } ∧
    publishPost now { p with status := .publishing } outcomes
      = .error .alreadyPublishing := by
  constructor
  · rcases hstatus with h | h | h <;> simp [publishGuard, h]
  · simp [publishPost, publishGuard, Except.map]

/-- Witness for C2: on a DRAFT post the first guard succeeds, flipping the
status to PUBLISHING, and a second publish call on the result fails with
AlreadyPublishing. -/
theorem publishGuard_concurrency_witness :
    publishGuard
        { status := .draft, scheduledAt := none, publishedAt := none,
          targets := [] }
      = .ok { status := .publishing, scheduledAt := none, publishedAt := none,
              targets := [] } ∧
    publishPost 0
        { status := .publishing, scheduledAt := none, publishedAt := none,
          targets := [] } []
      = .error .alreadyPublishing :=
  publishGuard_concurrency 0
    { status := .draft, scheduledAt := none, publishedAt := none,
      targets := [] } [] (Or.inl rfl)

/-- C3: createPost is atomic - whenever per-platform content validation
fails for at least one requested platform (all requested platforms having
connected accounts, so that validation is reached), the whole creation
fails with a single aggregated ContentValidationFailed error listing every
offending platform, and the Except error means zero Post and zero
PostPlatform rows are produced. -/
theorem createPost_atomic_validation (now : Nat) (connected : List String)
    (req : CreateRequest)
    (hconn : ∀ p ∈ req.platforms, p ∈ connected)
    (hbad : ∃ p ∈ req.platforms,
      validate_content_for_platform p req.content.length
        (!req.mediaUrls.isEmpty) ≠ []) :
    createPost now connected req
      = .error (.contentValidationFailed (req.platforms.filter fun p =>
          !(validate_content_for_platform p req.content.length
              (!req.mediaUrls.isEmpty)).isEmpty)) ∧
    ∀ p ∈ req.platforms,
      validate_content_for_platform p req.content.length
          (!req.mediaUrls.isEmpty) ≠ [] →
      p ∈ req.platforms.filter fun p =>
          !(validate_content_for_platform p req.content.length
              (!req.mediaUrls.isEmpty)).isEmpty := by
  obtain ⟨p0, hp0, hv0⟩ := hbad
  have hne : req.platforms.isEmpty = false := by
    cases hplat : req.platforms with
    | nil => rw [hplat] at hp0; cases hp0
    | cons a l => rfl
  have hfind : (req.platforms.find? fun p => !connected.contains p) = none := by
    rw [List.find?_eq_none]
    intro x hx
    simp [hconn x hx]
  have hv0e : (validate_content_for_platform p0 req.content.length
      (!req.mediaUrls.isEmpty)).isEmpty = false := by
    cases hv : validate_content_for_platform p0 req.content.length
        (!req.mediaUrls.isEmpty) with
    | nil => exact absurd hv hv0
    | cons a l => rfl
  have hmem0 : p0 ∈ req.platforms.filter fun p =>
      !(validate_content_for_platform p req.content.length
          (!req.mediaUrls.isEmpty)).isEmpty :=
    List.mem_filter.mpr ⟨hp0, by simp [hv0e]⟩
  have hoff : (req.platforms.filter fun p =>
      !(validate_content_for_platform p req.content.length
          (!req.mediaUrls.isEmpty)).isEmpty).isEmpty = false := by
    cases hh : req.platforms.filter fun p =>
        !(validate_content_for_platform p req.content.length
            (!req.mediaUrls.isEmpty)).isEmpty with
    | nil => rw [hh] at hmem0; cases hmem0
    | cons a l => rfl
  constructor
  · simp only [createPost, hne, Bool.false_eq_true, if_false, hfind, hoff,
      Bool.not_false, if_true]
  · intro p hp hvp
    refine List.mem_filter.mpr ⟨hp, ?_⟩
    cases hv : validate_content_for_platform p req.content.length
        (!req.mediaUrls.isEmpty) with
    | nil => exact absurd hv hvp
    | cons a l => rfl

/-- Witness for C3: a creation request for instagram with no media (account
connected) fails with an aggregated validation error naming instagram, and
instagram is listed among the offenders. -/
theorem createPost_atomic_validation_witness :
    createPost 0 ["instagram"]
        { content := "hi", platforms := ["instagram"], scheduledAt := none,
          mediaUrls := [] }
      = .error (.contentValidationFailed
          ((["instagram"] : List String).filter fun p =>
            !(validate_content_for_platform p ("hi" : String).length
                (!([] : List String).isEmpty)).isEmpty)) ∧
    ∀ p ∈ (["instagram"] : List String),
      validate_content_for_platform p ("hi" : String).length
          (!([] : List String).isEmpty) ≠ [] →
      p ∈ (["instagram"] : List String).filter fun p =>
          !(validate_content_for_platform p ("hi" : String).length
              (!([] : List String).isEmpty)).isEmpty :=
  createPost_atomic_validation 0 ["instagram"]
    { content := "hi", platforms := ["instagram"], scheduledAt := none,
      mediaUrls := [] }
    (by decide)
    ⟨"instagram", by decide, by decide⟩

theorem map_platform_mk (l : List String) :
    (List.map (fun t => t.platform) (l.map fun p =>
      ({ platform := p, targetStatus := .pending, errorMessage := none } :
        PostPlatformRec))) = l := by
  induction l with
  | nil => rfl
  | cons a l ih => simp [ih]

/-- C4: every successful createPost call with a future scheduledAt yields a
SCHEDULED post (success forces the instant to be future), with no
scheduledAt yields a DRAFT post, and in both cases creates exactly one
PostPlatform child per requested target platform, in order. -/
theorem createPost_status_and_children (now : Nat) (connected : List String)
    (req : CreateRequest) (post : PostRec)
    (hok : createPost now connected req = .ok post) :
    (req.scheduledAt = none → post.status = .draft) ∧
    (∀ t, req.scheduledAt = some t → post.status = .scheduled ∧ now < t) ∧
    (post.targets.map fun t => t.platform) = req.platforms := by
  unfold createPost at hok
  split at hok
  · cases hok
  · split at hok
    · cases hok
    · split at hok
      · cases hok
      · split at hok
        · split at hok
          · rename_i t hsched hlt
            injection hok with h
            subst h
            refine ⟨fun hn => ?_, fun t' ht' => ?_,
              map_platform_mk req.platforms⟩
            · rw [hsched] at hn; cases hn
            · rw [hsched] at ht'
              injection ht' with ht'
              subst ht'
              exact ⟨rfl, hlt⟩
          · cases hok
        · rename_i hsched
          injection hok with h
          subst h
          refine ⟨fun _ => rfl, fun t' ht' => ?_,
            map_platform_mk req.platforms⟩
          rw [hsched] at ht'
          cases ht'

/-- Witness for C4 (scheduled case): creating a post for x scheduled at
instant 10 as of instant 0 succeeds with status SCHEDULED and exactly one
PostPlatform child for x. -/
theorem createPost_status_and_children_witness :
    ((some 10 : Option Nat) = none →
      PostStatus.scheduled = PostStatus.draft) ∧
    (∀ t, (some 10 : Option Nat) = some t →
      PostStatus.scheduled = PostStatus.scheduled ∧ 0 < t) ∧
    (([{ platform := "x", targetStatus := .pending, errorMessage := none }] :
        List PostPlatformRec).map fun t => t.platform) = ["x"] := by
  have h := createPost_status_and_children 0 ["x"]
    { content := "hello", platforms := ["x"], scheduledAt := some 10,
      mediaUrls := [] }
    { status := .scheduled, scheduledAt := some 10, publishedAt := none,
      targets := [{ platform := "x", targetStatus := .pending,
                    errorMessage := none }] }
    (by rfl)
  exact h

set_option maxRecDepth 10000 in
/-- C6: the per-platform character limits are x 280, bluesky 300, threads
500, instagram 2200, tiktok 2200, linkedin 3000, facebook 63206 (about
63000); and creating a post for x and bluesky with 290 characters of
content and no media fails with a validation error listing exactly x -
bluesky is unaffected in the error detail - and no rows are persisted. -/
theorem platform_char_limits_scenario_a :
    PLATFORM_CHAR_LIMITS "x" = some 280 ∧
    PLATFORM_CHAR_LIMITS "bluesky" = some 300 ∧
    PLATFORM_CHAR_LIMITS "threads" = some 500 ∧
    PLATFORM_CHAR_LIMITS "instagram" = some 2200 ∧
    PLATFORM_CHAR_LIMITS "tiktok" = some 2200 ∧
    PLATFORM_CHAR_LIMITS "linkedin" = some 3000 ∧
    PLATFORM_CHAR_LIMITS "facebook" = some 63206 ∧
    createPost 0 ["x", "bluesky"]
        { content := String.mk (List.replicate 290 'a'),
          platforms := ["x", "bluesky"], scheduledAt := none,
          mediaUrls := [] }
      = .error (.contentValidationFailed ["x"]) := by
  refine ⟨rfl, rfl, rfl, rfl, rfl, rfl, rfl, ?_⟩
  rfl

theorem foldl_pickBest_spec {α : Type} (score : α → Rat) (time : α → Nat) :
    ∀ (cs : List α) (b : α),
      (cs.foldl (pickBest score time) b = b ∨
        cs.foldl (pickBest score time) b ∈ cs) ∧
      score b ≤ score (cs.foldl (pickBest score time) b) ∧
      (∀ s ∈ cs, score s ≤ score (cs.foldl (pickBest score time) b)) ∧
      (score b = score (cs.foldl (pickBest score time) b) →
        time (cs.foldl (pickBest score time) b) ≤ time b) ∧
      (∀ s ∈ cs, score s = score (cs.foldl (pickBest score time) b) →
        time (cs.foldl (pickBest score time) b) ≤ time s) := by
  intro cs
  induction cs with
  | nil =>
    intro b
    refine ⟨Or.inl rfl, le_refl _, ?_, fun _ => le_refl _, ?_⟩
    · intro s hs; cases hs
    · intro s hs; cases hs
  | cons x xs ih =>
    intro b
    simp only [List.foldl_cons, List.mem_cons]
    obtain ⟨hmem, hble, hall, htb, hts⟩ := ih (pickBest score time b x)
    have hcase : pickBest score time b x = x ∨ pickBest score time b x = b := by
      unfold pickBest
      split
      · exact Or.inl rfl
      · exact Or.inr rfl
    have hb_le : score b ≤ score (pickBest score time b x) := by
      unfold pickBest
      split
      · rename_i h
        rcases h with h | ⟨h, _⟩
        · exact le_of_lt h
        · exact le_of_eq h.symm
      · exact le_refl _
    have hx_le : score x ≤ score (pickBest score time b x) := by
      unfold pickBest
      split
      · exact le_refl _
      · rename_i h
        push_neg at h
        exact h.1
    have htime_b : score b = score (pickBest score time b x) →
        time (pickBest score time b x) ≤ time b := by
      unfold pickBest
      split
      · rename_i h
        intro heq
        rcases h with h | ⟨_, h⟩
        · exact absurd h (by rw [heq]; exact lt_irrefl _)
        · exact le_of_lt h
      · intro _
        exact le_refl _
    have htime_x : score x = score (pickBest score time b x) →
        time (pickBest score time b x) ≤ time x := by
      unfold pickBest
      split
      · intro _
        exact le_refl _
      · rename_i h
        push_neg at h
        intro heq
        exact h.2 heq
    refine ⟨?_, le_trans hb_le hble, ?_, ?_, ?_⟩
    · rcases hmem with h | h
      · rcases hcase with hc | hc
        · exact Or.inr (Or.inl (h.trans hc))
        · exact Or.inl (h.trans hc)
      · exact Or.inr (Or.inr h)
    · intro s hs
      rcases hs with rfl | hs
      · exact le_trans hx_le hble
      · exact hall s hs
    · intro heq
      have e1 : score (pickBest score time b x)
          = score (xs.foldl (pickBest score time) (pickBest score time b x)) :=
        le_antisymm hble (heq ▸ hb_le)
      have e2 : score b = score (pickBest score time b x) :=
        le_antisymm hb_le (e1.trans heq.symm).le
      exact le_trans (htb e1) (htime_b e2)
    · intro s hs heq
      rcases hs with hsx | hs
      · have heqx : score x
            = score (xs.foldl (pickBest score time) (pickBest score time b x)) :=
          hsx ▸ heq
        have e1 : score (pickBest score time b x)
            = score (xs.foldl (pickBest score time) (pickBest score time b x)) :=
          le_antisymm hble (heqx ▸ hx_le)
        have e3 : score x = score (pickBest score time b x) :=
          heqx.trans e1.symm
        rw [hsx]
        exact le_trans (htb e1) (htime_x e3)
      · exact hts s hs heq

/-- C7: getOptimalSingleTime computes for each candidate slot an aggregate
score equal to the mean of the per-platform scores at that slot (0 for a
platform with no data), and on a nonempty candidate list returns a
candidate whose aggregate score is the true maximum over all evaluated
candidate slots, the earlier instant winning every tie. -/
theorem getOptimalSingleTime_true_max (pats : String → Nat → Nat → Option Nat)
    (platforms : List String) (candidates : List TimeSlot)
    (hne : candidates ≠ []) :
    (∀ s : TimeSlot, aggScore pats platforms s =
      ((platforms.map fun p =>
        (((pats p s.day s.hour).getD 0 : Nat) : Rat)).sum)
        / (platforms.length : Rat)) ∧
    ∃ r, getOptimalSingleTime pats platforms candidates = some r ∧
      r ∈ candidates ∧
      (∀ s ∈ candidates,
        aggScore pats platforms s ≤ aggScore pats platforms r) ∧
      (∀ s ∈ candidates,
        aggScore pats platforms s = aggScore pats platforms r →
          r.time ≤ s.time) := by
  refine ⟨fun s => rfl, ?_⟩
  cases candidates with
  | nil => exact absurd rfl hne
  | cons c cs =>
    obtain ⟨hmem, hble, hall, htb, hts⟩ :=
      foldl_pickBest_spec (aggScore pats platforms) TimeSlot.time cs c
    refine ⟨cs.foldl (pickBest (aggScore pats platforms) TimeSlot.time) c,
      rfl, ?_, ?_, ?_⟩
    · rcases hmem with h | h
      · rw [h]
        exact List.mem_cons_self c cs
      · exact List.mem_cons_of_mem c h
    · intro s hs
      rcases List.mem_cons.mp hs with rfl | hs
      · exact hble
      · exact hall s hs
    · intro s hs heq
      rcases List.mem_cons.mp hs with rfl | hs
      · exact htb heq
      · exact hts s hs heq

/-- Witness for C7: two concrete candidate slots under a constant pattern
tie on the aggregate score, so the earlier slot is returned as the
maximum. -/
theorem getOptimalSingleTime_true_max_witness :
    (∀ s : TimeSlot,
      aggScore (fun _ _ _ => some 50) ["x"] s =
      (((["x"] : List String).map fun p =>
        ((((fun _ _ _ => some (50 : Nat)) p s.day s.hour).getD 0 : Nat) :
          Rat)).sum) / ((["x"] : List String).length : Rat)) ∧
    ∃ r, getOptimalSingleTime (fun _ _ _ => some 50) ["x"]
        [{ time := 3, day := 0, hour := 3 }, { time := 7, day := 0, hour := 7 }]
        = some r ∧
      r ∈ [({ time := 3, day := 0, hour := 3 } : TimeSlot),
           { time := 7, day := 0, hour := 7 }] ∧
      (∀ s ∈ [({ time := 3, day := 0, hour := 3 } : TimeSlot),
           { time := 7, day := 0, hour := 7 }],
        aggScore (fun _ _ _ => some 50) ["x"] s
          ≤ aggScore (fun _ _ _ => some 50) ["x"] r) ∧
      (∀ s ∈ [({ time := 3, day := 0, hour := 3 } : TimeSlot),
           { time := 7, day := 0, hour := 7 }],
        aggScore (fun _ _ _ => some 50) ["x"] s
            = aggScore (fun _ _ _ => some 50) ["x"] r →
          r.time ≤ s.time) :=
  getOptimalSingleTime_true_max (fun _ _ _ => some 50) ["x"]
    [{ time := 3, day := 0, hour := 3 }, { time := 7, day := 0, hour := 7 }]
    (by simp)

/-- C9: every QuickPost submission that targets instagram (a media-mandating
platform) with no media attached and nonempty content fails with the
validation error built from the media-mandating platforms - a message
stating that Instagram requires media - and no createPost payload is
produced. -/
theorem handleSubmit_instagram_requires_media (content : String)
    (selectedPlatforms : List String) (schedule : Bool)
    (scheduledDate scheduledTime : String)
    (hcontent : trimStr content ≠ "")
    (hinsta : "instagram" ∈ selectedPlatforms) :
    handleSubmit content selectedPlatforms [] schedule scheduledDate
        scheduledTime
      = .error (mediaRequiredMessage selectedPlatforms) ∧
    mediaRequiredMessage ["instagram"]
      = "Instagram requires media - please add an image or video" := by
  constructor
  · have hne : selectedPlatforms.isEmpty = false := by
      cases selectedPlatforms with
      | nil => cases hinsta
      | cons a l => rfl
    have hany : (selectedPlatforms.any fun p =>
        mediaRequiredPlatforms.contains p) = true := by
      refine List.any_eq_true.mpr ⟨"instagram", hinsta, ?_⟩
      rfl
    rw [handleSubmit, if_neg hcontent]
    rw [hne]
    simp only [Bool.false_eq_true, if_false]
    rw [hany]
    rfl
  · rfl

/-- Witness for C9: submitting nonempty content to instagram alone with no
media yields exactly the Instagram-requires-media error. -/
theorem handleSubmit_instagram_requires_media_witness :
    handleSubmit "hello" ["instagram"] [] false "" ""
      = .error (mediaRequiredMessage ["instagram"]) ∧
    mediaRequiredMessage ["instagram"]
      = "Instagram requires media - please add an image or video" :=
  handleSubmit_instagram_requires_media "hello" ["instagram"] false "" ""
    (by decide) (by decide)

theorem foldl_min_le_init (l : List Nat) : ∀ a : Nat, l.foldl Nat.min a ≤ a := by
  induction l with
  | nil =>
    intro a
    exact le_refl a
  | cons x xs ih =>
    intro a
    exact le_trans (ih (Nat.min a x)) (Nat.min_le_left a x)

theorem foldl_min_le_mem (l : List Nat) :
    ∀ (a x : Nat), x ∈ l → l.foldl Nat.min a ≤ x := by
  induction l with
  | nil =>
    intro a x hx
    cases hx
  | cons y ys ih =>
    intro a x hx
    rcases List.mem_cons.mp hx with rfl | hx
    · exact le_trans (foldl_min_le_init ys (Nat.min a x)) (Nat.min_le_right a x)
    · exact ih (Nat.min a y) x hx

theorem foldl_min_eq_init_or_mem (l : List Nat) : ∀ a : Nat,
    l.foldl Nat.min a = a ∨ l.foldl Nat.min a ∈ l := by
  induction l with
  | nil =>
    intro a
    exact Or.inl rfl
  | cons x xs ih =>
    intro a
    rcases ih (Nat.min a x) with h | h
    · rcases Nat.le_total a x with hax | hxa
      · left
        rw [List.foldl_cons, h]
        exact Nat.min_eq_left hax
      · right
        rw [List.foldl_cons, h]
        have hx : Nat.min a x = x := Nat.min_eq_right hxa
        rw [hx]
        exact List.mem_cons_self x xs
    · right
      exact List.mem_cons_of_mem x h

/-- C10: in the QuickPost composer the enforced maximum content length is
2200 with no platform selected; with platforms selected it is a lower bound
of every selected platform's limit and is attained by one of them (so it is
the minimum over the selected platforms, with 2200 for a platform absent
from the limits table); and a platform is counted over limit exactly when
the content length strictly exceeds that platform's limit. -/
theorem maxLength_platformsOverLimit_spec :
    maxLength [] = 2200 ∧
    (∀ (selected : List String) (p : String), p ∈ selected →
      maxLength selected ≤ charLimitOr2200 p) ∧
    (∀ selected : List String, selected ≠ [] →
      ∃ p ∈ selected, maxLength selected = charLimitOr2200 p) ∧
    (∀ (selected : List String) (len : Nat) (p : String),
      p ∈ platformsOverLimit selected len ↔
        p ∈ selected ∧ charLimitOr2200 p < len) := by
  refine ⟨rfl, ?_, ?_, ?_⟩
  · intro selected p hp
    cases selected with
    | nil => cases hp
    | cons q ps =>
      rcases List.mem_cons.mp hp with rfl | hp
      · exact foldl_min_le_init (ps.map charLimitOr2200) (charLimitOr2200 p)
      · exact foldl_min_le_mem (ps.map charLimitOr2200) (charLimitOr2200 q)
          (charLimitOr2200 p) (List.mem_map_of_mem charLimitOr2200 hp)
  · intro selected hne
    cases selected with
    | nil => exact absurd rfl hne
    | cons q ps =>
      rcases foldl_min_eq_init_or_mem (ps.map charLimitOr2200)
          (charLimitOr2200 q) with h | h
      · exact ⟨q, List.mem_cons_self q ps, h⟩
      · rcases List.mem_map.mp h with ⟨p, hp, hpe⟩
        exact ⟨p, List.mem_cons_of_mem q hp, hpe.symm⟩
  · intro selected len p
    simp [platformsOverLimit, List.mem_filter]

/-- Witness for C10: with x and bluesky selected the enforced limit is
bounded by the limit of x, and x is counted over limit at content length
290 while bluesky is not. -/
theorem maxLength_platformsOverLimit_spec_witness :
    maxLength ["x", "bluesky"] ≤ charLimitOr2200 "x" ∧
    ("x" ∈ platformsOverLimit ["x", "bluesky"] 290 ↔
      "x" ∈ (["x", "bluesky"] : List String) ∧ charLimitOr2200 "x" < 290) :=
  ⟨maxLength_platformsOverLimit_spec.2.1 ["x", "bluesky"] "x" (by decide),
   maxLength_platformsOverLimit_spec.2.2.2 ["x", "bluesky"] 290 "x"⟩

end Apulu
